import Mathlib

/-!
# Verification of the BGG hotness dashboard (`streamlit_bgg.py`)

A shallow embedding of the data model and operations of the single-file
dashboard. The prepared table is a `List Row`; pandas operations become
list operations:

* `read_csv` with `parse_dates` — the input is an already-parsed
  `List RawRow`, with calendar dates as day indices (`Nat`), so that
  `pd.Timedelta(days=1)` is `+ 1`;
* `str.replace("'", "", regex=False)` — with a one-character pattern and
  empty replacement this removes every apostrophe character
  (`sanitizeName`);
* `sort_values` — `List.insertionSort` with the corresponding key
  comparison (a deterministic, stable refinement of the sort pandas uses;
  no claim depends on the order among rows whose sort keys tie);
* `groupby("game_id")["views"].diff().fillna(0)` — each row gets the
  difference of `views` to the most recent earlier row of the same
  `game_id` (the rows keep their current frame order), the group head
  getting `NaN`, turned into `0` by `fillna(0)` (`diffValue`);
* `drop_duplicates` — `distinctBy` keeps the first occurrence per key;
* `pivot_table(index="date", columns="name", values="views_diff",
  aggfunc="sum").fillna(0)` — a grid of per-`(date, name)` sums over the
  distinct dates and names (`pivotRows`); an absent combination is an
  empty sum, i.e. `0`. pandas additionally sorts the column labels; none
  of the verified statements depend on the column order, so columns stay
  in first-appearance order here;
* widget calls (`st.warning`, `st.line_chart`, `st.altair_chart`,
  `st.dataframe`) — small result types (`GameOut`, `RankOut`, `TableOut`)
  recording which call a run issues and the data handed to it.
-/

/-- One parsed row of the input CSV `bgg_hotness_history.csv`:
`game_id`, `date` (day index), `name`, `year`, `rank`, `views`. -/
structure RawRow where
  game_id : Nat
  date : Nat
  name : String
  year : Int
  rank : Nat
  views : Int
  deriving DecidableEq

/-- A row of the prepared table: a raw row plus the derived `views_diff`
column. -/
structure Row extends RawRow where
  views_diff : Int
  deriving DecidableEq

/-- The apostrophe character removed by line 13 of the source. -/
def apostrophe : Char := '\''

/-- Embeds `df["name"].str.replace("'", "", regex=False)` (line 13): with
the one-character pattern `'` and empty replacement, every apostrophe
character is removed from the string. -/
def sanitizeName (s : String) : String :=
  ⟨s.data.filter (fun c => c ≠ apostrophe)⟩

/-- Line 13 applied to a whole row: only the `name` column changes. -/
def sanitizeRow (r : RawRow) : RawRow :=
  { r with name := sanitizeName r.name }

/-- The ascending key order of `df.sort_values(by=["game_id", "date"])`
(line 14): lexicographic on `(game_id, date)`. -/
def rawLe (a b : RawRow) : Prop :=
  a.game_id < b.game_id ∨ (a.game_id = b.game_id ∧ a.date ≤ b.date)

instance : DecidableRel rawLe := fun a b => by
  unfold rawLe
  infer_instance

instance : IsTotal RawRow rawLe := ⟨by
  intro a b
  unfold rawLe
  omega⟩

instance : IsTrans RawRow rawLe := ⟨by
  intro a b c hab hbc
  unfold rawLe at hab hbc ⊢
  omega⟩

/-- Embeds `df.sort_values(by=["game_id", "date"])` (line 14). -/
def sortRows (l : List RawRow) : List RawRow :=
  List.insertionSort rawLe l

/-- The `views_diff` of a row, given the rows standing before it in the
frame: `groupby("game_id")["views"].diff()` takes, within each `game_id`
group, the difference to the previous member of the group (rows keep
their current frame order); the group head has no previous member and
gets `NaN`, which `fillna(0)` (line 15) turns into `0`. -/
def diffValue (earlier : List RawRow) (r : RawRow) : Int :=
  match (earlier.filter (fun p => p.game_id == r.game_id)).getLast? with
  | some p => r.views - p.views
  | none => 0

/-- Attaches `views_diff` to every row of the frame, threading the list
of rows already passed. -/
def withDiffsAux (earlier : List RawRow) : List RawRow → List Row
  | [] => []
  | r :: rs => { toRawRow := r, views_diff := diffValue earlier r } :: withDiffsAux (earlier ++ [r]) rs

/-- Embeds line 15, `df["views_diff"] = df.groupby("game_id")["views"].diff().fillna(0)`. -/
def withDiffs (l : List RawRow) : List Row :=
  withDiffsAux [] l

/-- The scrutinee of the cutoff computation: `df["date"].min()` (line 18),
`none` on an empty frame (pandas `NaT`, which compares false to
everything, so the cutoff filter then keeps nothing). -/
def cutoffMin (d : List Row) : Option Nat :=
  (d.map (fun r => r.date)).min?

/-- The cutoff step, lines 18–19: keep only the rows with
`date >= df["date"].min() + 1 day`. -/
def cutoffFilter (d : List Row) : List Row :=
  match cutoffMin d with
  | none => []
  | some m => d.filter (fun r => decide (m + 1 ≤ r.date))

/-- Embeds `load_and_prepare_data` (lines 5–20) on the already-parsed CSV
rows: sanitize `name`, sort by `(game_id, date)`, attach `views_diff`,
then apply the cutoff of lines 18–19. -/
def load_and_prepare_data (raw : List RawRow) : List Row :=
  cutoffFilter (withDiffs (sortRows (raw.map sanitizeRow)))

/-- The 2-games-over-3-days CSV of the spec scenario: views
`[100, 120, 135]` and `[50, 80, 95]` in date order. -/
def scenarioCsv : List RawRow :=
  [⟨101, 1, "Alpha", 2020, 1, 100⟩, ⟨101, 2, "Alpha", 2020, 1, 120⟩,
   ⟨101, 3, "Alpha", 2020, 1, 135⟩, ⟨102, 1, "Beta", 2021, 2, 50⟩,
   ⟨102, 2, "Beta", 2021, 2, 80⟩, ⟨102, 3, "Beta", 2021, 2, 95⟩]

/-- The prepared table the scenario should produce: day 1 dropped, day-2
diffs 20 and 30, day-3 diffs 15 and 15. -/
def scenarioPrepared : List Row :=
  [⟨⟨101, 2, "Alpha", 2020, 1, 120⟩, 20⟩, ⟨⟨101, 3, "Alpha", 2020, 1, 135⟩, 15⟩,
   ⟨⟨102, 2, "Beta", 2021, 2, 80⟩, 30⟩, ⟨⟨102, 3, "Beta", 2021, 2, 95⟩, 15⟩]

theorem withDiffsAux_map_raw (pre l : List RawRow) :
    (withDiffsAux pre l).map (fun r => r.toRawRow) = l := by
  induction l generalizing pre with
  | nil => rfl
  | cons r rs ih => simp [withDiffsAux, ih]

theorem withDiffs_map_raw (l : List RawRow) :
    (withDiffs l).map (fun r => r.toRawRow) = l :=
  withDiffsAux_map_raw [] l

theorem withDiffs_length (l : List RawRow) : (withDiffs l).length = l.length := by
  have h := congrArg List.length (withDiffs_map_raw l)
  simpa using h

theorem withDiffs_dates (l : List RawRow) :
    (withDiffs l).map (fun r => r.date) = l.map (fun r => r.date) := by
  have h := congrArg (List.map (fun r : RawRow => r.date)) (withDiffs_map_raw l)
  simpa [List.map_map] using h

theorem sortRows_perm (l : List RawRow) : (sortRows l).Perm l :=
  List.perm_insertionSort rawLe l

theorem sortRows_sorted (l : List RawRow) : List.Sorted rawLe (sortRows l) :=
  List.sorted_insertionSort rawLe l

theorem sanitize_dates (raw : List RawRow) :
    (raw.map sanitizeRow).map (fun r => r.date) = raw.map (fun r => r.date) := by
  simp [List.map_map, sanitizeRow]

theorem nat_min?_of_perm {l₁ l₂ : List Nat} (h : l₁.Perm l₂) : l₁.min? = l₂.min? := by
  cases h₂ : l₂.min? with
  | none =>
    rw [List.min?_eq_none_iff] at h₂ ⊢
    exact List.Perm.eq_nil (h₂ ▸ h)
  | some m =>
    rw [List.min?_eq_some_iff'] at h₂ ⊢
    exact ⟨h.mem_iff.mpr h₂.1, fun b hb => h₂.2 b (h.mem_iff.mp hb)⟩

/-- The dates of the sorted, sanitized, diffed frame are a permutation of
the raw dates, so the minimum taken on line 18 is the raw minimum. -/
theorem prepared_dates_perm (raw : List RawRow) :
    ((withDiffs (sortRows (raw.map sanitizeRow))).map (fun r => r.date)).Perm
      (raw.map (fun r => r.date)) := by
  rw [withDiffs_dates]
  have h := (sortRows_perm (raw.map sanitizeRow)).map (fun r : RawRow => r.date)
  rw [sanitize_dates] at h
  exact h

theorem cutoffMin_eq_raw_min (raw : List RawRow) :
    cutoffMin (withDiffs (sortRows (raw.map sanitizeRow)))
      = (raw.map (fun r => r.date)).min? :=
  nat_min?_of_perm (prepared_dates_perm raw)

theorem load_and_prepare_data_eq_filter (raw : List RawRow) (m : Nat)
    (hm : (raw.map (fun r => r.date)).min? = some m) :
    load_and_prepare_data raw
      = (withDiffs (sortRows (raw.map sanitizeRow))).filter
          (fun r => decide (m + 1 ≤ r.date)) := by
  have hc : cutoffMin (withDiffs (sortRows (raw.map sanitizeRow))) = some m :=
    (cutoffMin_eq_raw_min raw).trans hm
  unfold load_and_prepare_data cutoffFilter
  rw [hc]

/-- C1: the prepared table is the sorted, diffed frame filtered by the
single global cutoff `min(date) + 1`: every row with `date < cutoff` is
dropped, every row with `date >= cutoff` is kept, and in particular no
surviving row carries the global minimum date of the raw file. -/
theorem c1_global_cutoff (raw : List RawRow) (m : Nat)
    (hm : (raw.map (fun r => r.date)).min? = some m) :
    load_and_prepare_data raw
      = (withDiffs (sortRows (raw.map sanitizeRow))).filter
          (fun r => decide (m + 1 ≤ r.date))
    ∧ (∀ r ∈ load_and_prepare_data raw, m + 1 ≤ r.date ∧ r.date ≠ m)
    ∧ (∀ r ∈ withDiffs (sortRows (raw.map sanitizeRow)),
        m + 1 ≤ r.date → r ∈ load_and_prepare_data raw) := by
  have heq := load_and_prepare_data_eq_filter raw m hm
  refine ⟨heq, ?_, ?_⟩
  · intro r hr
    rw [heq, List.mem_filter, decide_eq_true_iff] at hr
    omega
  · intro r hr hdate
    rw [heq, List.mem_filter, decide_eq_true_iff]
    exact ⟨hr, hdate⟩

theorem c1_global_cutoff_witness :
    ((scenarioCsv.map (fun r => r.date)).min? = some 1)
    ∧ (∀ r ∈ load_and_prepare_data scenarioCsv, 1 + 1 ≤ r.date ∧ r.date ≠ 1) :=
  ⟨by decide, (c1_global_cutoff scenarioCsv 1 (by decide)).2.1⟩

/-- C6: the data-preparation function is deterministic — two runs on the
same CSV content produce identical prepared tables, row order included.
In this embedding every step (sanitize, sort with a fixed comparison,
diff, cutoff filter) is a pure function of the parsed rows. -/
theorem c6_deterministic (c₁ c₂ : List RawRow) (h : c₁ = c₂) :
    load_and_prepare_data c₁ = load_and_prepare_data c₂ := by
  rw [h]

theorem c6_deterministic_witness :
    (scenarioCsv = scenarioCsv)
    ∧ load_and_prepare_data scenarioCsv = load_and_prepare_data scenarioCsv :=
  ⟨rfl, c6_deterministic scenarioCsv scenarioCsv rfl⟩

theorem mem_load_and_prepare_data {raw : List RawRow} {r : Row}
    (hr : r ∈ load_and_prepare_data raw) :
    r ∈ withDiffs (sortRows (raw.map sanitizeRow)) := by
  unfold load_and_prepare_data cutoffFilter at hr
  cases hc : cutoffMin (withDiffs (sortRows (raw.map sanitizeRow))) with
  | none => rw [hc] at hr; simp at hr
  | some m => rw [hc] at hr; exact List.mem_of_mem_filter hr

/-- C8: every `name` in the prepared table is free of apostrophe
characters — line 13 strips them before anything else happens. -/
theorem c8_names_sanitized (raw : List RawRow) (r : Row)
    (hr : r ∈ load_and_prepare_data raw) : apostrophe ∉ r.name.data := by
  have hd : r ∈ withDiffs (sortRows (raw.map sanitizeRow)) :=
    mem_load_and_prepare_data hr
  have hraw : r.toRawRow ∈ sortRows (raw.map sanitizeRow) := by
    rw [← withDiffs_map_raw (sortRows (raw.map sanitizeRow))]
    exact List.mem_map_of_mem _ hd
  have hmem : r.toRawRow ∈ raw.map sanitizeRow :=
    (sortRows_perm (raw.map sanitizeRow)).mem_iff.mp hraw
  rcases List.mem_map.mp hmem with ⟨x, _, hx⟩
  intro habs
  have hname : r.name = sanitizeName x.name := by
    rw [← hx]
    rfl
  rw [hname] at habs
  have := (List.mem_filter.mp habs).2
  simp at this

/-- The raw CSV witnessing the sanitization example: a game called
King's Hall. -/
def rawKings : List RawRow :=
  [⟨201, 1, "King's Hall", 2019, 3, 10⟩, ⟨201, 2, "King's Hall", 2019, 3, 25⟩]

/-- The surviving prepared row of `rawKings`: the name has become
Kings Hall. -/
def kingsRow : Row := ⟨⟨201, 2, "Kings Hall", 2019, 3, 25⟩, 15⟩

theorem c8_names_sanitized_witness :
    (kingsRow ∈ load_and_prepare_data rawKings) ∧ apostrophe ∉ kingsRow.name.data :=
  ⟨by decide, c8_names_sanitized rawKings kingsRow (by decide)⟩

theorem withDiffsAux_getElem (l : List RawRow) (pre : List RawRow) (i : Nat)
    (hi : i < l.length) (hi2 : i < (withDiffsAux pre l).length) :
    (withDiffsAux pre l)[i] = ⟨l[i], diffValue (pre ++ l.take i) l[i]⟩ := by
  induction l generalizing pre i with
  | nil => simp at hi
  | cons r rs ih =>
    cases i with
    | zero => simp [withDiffsAux]
    | succ n =>
      have hn : n < rs.length := by simpa using hi
      have hn2 : n < (withDiffsAux (pre ++ [r]) rs).length := by
        simpa [withDiffsAux] using hi2
      have hstep : (withDiffsAux pre (r :: rs))[n + 1] = (withDiffsAux (pre ++ [r]) rs)[n] := by
        simp [withDiffsAux]
      rw [hstep, ih (pre ++ [r]) n hn hn2]
      simp [List.take_succ_cons]

theorem withDiffs_getElem (l : List RawRow) (i : Nat)
    (hi : i < l.length) (hi2 : i < (withDiffs l).length) :
    (withDiffs l)[i] = ⟨l[i], diffValue (l.take i) l[i]⟩ := by
  have h := withDiffsAux_getElem l [] i hi hi2
  simpa [withDiffs] using h

/-- C2: on the `(game_id, date)`-sorted frame, `views_diff` is the
per-`game_id` first difference of `views` — a row whose `game_id` never
occurs earlier in the sorted frame gets exactly 0, and a row directly
preceded by a row of the same game gets the difference of their `views`;
and on the scenario CSV (2 games over 3 days, views `[100, 120, 135]` and
`[50, 80, 95]`), preparation drops the day-1 rows and yields day-2 diffs
20 and 30 and day-3 diffs 15 and 15. -/
theorem c2_views_diff (raw : List RawRow) (s : List RawRow) (d : List Row)
    (hs : s = sortRows (raw.map sanitizeRow)) (hd : d = withDiffs s) :
    List.Sorted rawLe s
    ∧ s.Perm (raw.map sanitizeRow)
    ∧ (∀ i, ∀ hi : i < s.length, ∀ hi2 : i < d.length,
        (∀ j, ∀ hj : j < s.length, j < i → (s[j]).game_id ≠ (s[i]).game_id) →
        (d[i]).views_diff = 0)
    ∧ (∀ i, ∀ h₁ : i + 1 < s.length, ∀ h₂ : i + 1 < d.length, ∀ h₀ : i < s.length,
        (s[i]).game_id = (s[i + 1]).game_id →
        (d[i + 1]).views_diff = (s[i + 1]).views - (s[i]).views)
    ∧ load_and_prepare_data scenarioCsv = scenarioPrepared := by
  subst hs hd
  refine ⟨sortRows_sorted _, sortRows_perm _, ?_, ?_, by decide⟩
  · intro i hi hi2 hfirst
    set s := sortRows (raw.map sanitizeRow) with hs
    rw [withDiffs_getElem s i hi hi2]
    have hfilter : (s.take i).filter (fun p => p.game_id == s[i].game_id) = [] := by
      rw [List.filter_eq_nil_iff]
      intro p hp
      rcases List.mem_iff_getElem.mp hp with ⟨j, hjlen, hj⟩
      have hjlt : j < i := by
        have := hjlen
        rw [List.length_take] at this
        omega
      have hjs : j < s.length := by
        have := hjlen
        rw [List.length_take] at this
        omega
      have hje : (s.take i)[j] = s[j] := List.getElem_take s
      rw [hje] at hj
      have hne := hfirst j hjs hjlt
      rw [hj] at hne
      simpa using hne
    simp [diffValue, hfilter]
  · intro i h₁ h₂ h₀ hsame
    set s := sortRows (raw.map sanitizeRow) with hs
    rw [withDiffs_getElem s (i + 1) h₁ h₂]
    have htake : s.take (i + 1) = s.take i ++ [s[i]] := by
      rw [List.take_succ]
      simp [List.getElem?_eq_getElem h₀]
    have hfilter : (s.take (i + 1)).filter (fun p => p.game_id == s[i + 1].game_id)
        = (s.take i).filter (fun p => p.game_id == s[i + 1].game_id) ++ [s[i]] := by
      rw [htake, List.filter_append]
      simp [hsame]
    simp [diffValue, hfilter]

theorem c2_views_diff_witness :
    (sortRows (scenarioCsv.map sanitizeRow) = sortRows (scenarioCsv.map sanitizeRow))
    ∧ load_and_prepare_data scenarioCsv = scenarioPrepared :=
  ⟨rfl, (c2_views_diff scenarioCsv _ _ rfl rfl).2.2.2.2⟩

/-- Embeds pandas `drop_duplicates` (with `distinctBy key` for
`drop_duplicates(subset=key)` and `distinctBy id` for the plain call):
keeps the first occurrence per key, threading the keys already seen. -/
def distinctByAux {α β : Type} [DecidableEq β] (key : α → β) (seen : List β) : List α → List α
  | [] => []
  | x :: xs =>
    if key x ∈ seen then distinctByAux key seen xs
    else x :: distinctByAux key (seen ++ [key x]) xs

/-- `drop_duplicates` keyed by `key`, keeping first occurrences. -/
def distinctBy {α β : Type} [DecidableEq β] (key : α → β) (l : List α) : List α :=
  distinctByAux key [] l

theorem mem_map_key_distinctByAux {α β : Type} [DecidableEq β] (key : α → β)
    (seen : List β) (l : List α) (b : β) :
    b ∈ (distinctByAux key seen l).map key ↔ b ∈ l.map key ∧ b ∉ seen := by
  induction l generalizing seen with
  | nil => simp [distinctByAux]
  | cons x xs ih =>
    by_cases hx : key x ∈ seen
    · rw [distinctByAux, if_pos hx, ih]
      simp only [List.map_cons, List.mem_cons]
      constructor
      · rintro ⟨hmem, hns⟩
        exact ⟨Or.inr hmem, hns⟩
      · rintro ⟨hmem | hmem, hns⟩
        · exact absurd (hmem ▸ hx) hns
        · exact ⟨hmem, hns⟩
    · rw [distinctByAux, if_neg hx]
      simp only [List.map_cons, List.mem_cons, ih (seen ++ [key x]), List.mem_append,
        List.mem_singleton]
      constructor
      · rintro (hb | ⟨hmem, hns⟩)
        · exact ⟨Or.inl hb, hb ▸ hx⟩
        · exact ⟨Or.inr hmem, fun hc => hns (Or.inl hc)⟩
      · rintro ⟨hb | hmem, hns⟩
        · exact Or.inl hb
        · by_cases hbk : b = key x
          · exact Or.inl hbk
          · exact Or.inr ⟨hmem, by tauto⟩

theorem nodup_map_key_distinctByAux {α β : Type} [DecidableEq β] (key : α → β)
    (seen : List β) (l : List α) :
    ((distinctByAux key seen l).map key).Nodup := by
  induction l generalizing seen with
  | nil => simp [distinctByAux]
  | cons x xs ih =>
    by_cases hx : key x ∈ seen
    · rw [distinctByAux, if_pos hx]
      exact ih seen
    · rw [distinctByAux, if_neg hx]
      simp only [List.map_cons, List.nodup_cons]
      refine ⟨fun hc => ?_, ih (seen ++ [key x])⟩
      have := (mem_map_key_distinctByAux key (seen ++ [key x]) xs (key x)).mp hc
      simp at this

theorem find?_of_mem_distinctByAux {α β : Type} [DecidableEq β] (key : α → β)
    (seen : List β) (l : List α) (x : α) (hx : x ∈ distinctByAux key seen l) :
    key x ∉ seen ∧ l.find? (fun y => decide (key y = key x)) = some x := by
  induction l generalizing seen with
  | nil => simp [distinctByAux] at hx
  | cons z zs ih =>
    by_cases hz : key z ∈ seen
    · rw [distinctByAux, if_pos hz] at hx
      obtain ⟨hns, hfind⟩ := ih seen hx
      have hne : ¬(key z = key x) := fun he => hns (he ▸ hz)
      refine ⟨hns, ?_⟩
      rw [List.find?_cons]
      simp [hne, hfind]
    · rw [distinctByAux, if_neg hz] at hx
      rcases List.mem_cons.mp hx with hzx | hmem
      · subst hzx
        refine ⟨hz, ?_⟩
        rw [List.find?_cons]
        simp
      · obtain ⟨hns, hfind⟩ := ih (seen ++ [key z]) hmem
        have hns2 : key x ∉ seen := fun hc => hns (by simp [hc])
        have hne : ¬(key z = key x) := fun he => hns (by simp [he])
        refine ⟨hns2, ?_⟩
        rw [List.find?_cons]
        simp [hne, hfind]

theorem mem_distinctBy_id {α : Type} [DecidableEq α] (l : List α) (x : α) :
    x ∈ distinctBy (fun a => a) l ↔ x ∈ l := by
  have h := mem_map_key_distinctByAux (fun a : α => a) [] l x
  simpa [distinctBy, List.map_id'] using h

/-- The ascending key order of `sort_values("rank")` on prepared rows. -/
def rankLe (a b : Row) : Prop := a.rank ≤ b.rank

instance : DecidableRel rankLe := fun a b => by
  unfold rankLe
  infer_instance

instance : IsTotal Row rankLe := ⟨by
  intro a b
  unfold rankLe
  omega⟩

instance : IsTrans Row rankLe := ⟨by
  intro a b c hab hbc
  unfold rankLe at hab hbc ⊢
  omega⟩

/-- Embeds `sort_values("rank")` on prepared rows. -/
def sortByRank (l : List Row) : List Row :=
  List.insertionSort rankLe l

/-- Embeds `df.drop_duplicates(subset="name")`: keeps, for every name,
the first row carrying it in the current frame order. -/
def dropDupsByName (df : List Row) : List Row :=
  distinctBy (fun r => r.name) df

/-- Embeds line 81,
`df.drop_duplicates(subset="name").sort_values("rank")["name"].tolist()`:
duplicates are collapsed first (keeping each name's first record in the
prepared `(game_id, date)` order), then the kept rows are sorted by their
rank. -/
def all_games_list (df : List Row) : List String :=
  (sortByRank (dropDupsByName df)).map (fun r => r.name)

/-- The candidate list as claim C4 words it: duplicates collapsed keeping
the first occurrence AFTER sorting by rank (so each name keeps its best
rank ever), built here only to compare against the source order. -/
def all_games_list_claim (df : List Row) : List String :=
  (dropDupsByName (sortByRank df)).map (fun r => r.name)

/-- The rank of the most recent record of name `n` in the prepared table
(last occurrence in `(game_id, date)` order), as the claim's phrase
"most-recently-seen rank" reads. -/
def mostRecentRank (df : List Row) (n : String) : Option Nat :=
  ((df.filter (fun r => decide (r.name = n))).map (fun r => r.rank)).getLast?

/-- A CSV on which the source order of the candidate list differs from
the claimed one: after the day-1 cutoff, game Aleph holds ranks 4 then 1
and game Bet holds ranks 2 then 3. -/
def rawC4 : List RawRow :=
  [⟨1, 1, "Aleph", 2020, 9, 10⟩, ⟨1, 2, "Aleph", 2020, 4, 20⟩,
   ⟨1, 3, "Aleph", 2020, 1, 35⟩, ⟨2, 1, "Bet", 2021, 10, 5⟩,
   ⟨2, 2, "Bet", 2021, 2, 9⟩, ⟨2, 3, "Bet", 2021, 3, 14⟩]

/-- C4 counterexample: on `rawC4` the source emits `["Bet", "Aleph"]`
(each name keeps its FIRST record — Aleph rank 4, Bet rank 2 — and those
are sorted), while the claimed construction emits `["Aleph", "Bet"]`, as
does ordering by most-recently-seen rank (Aleph 1, Bet 3). -/
theorem c4_counterexample :
    all_games_list (load_and_prepare_data rawC4) = ["Bet", "Aleph"]
    ∧ all_games_list_claim (load_and_prepare_data rawC4) = ["Aleph", "Bet"]
    ∧ mostRecentRank (load_and_prepare_data rawC4) "Aleph" = some 1
    ∧ mostRecentRank (load_and_prepare_data rawC4) "Bet" = some 3
    ∧ all_games_list (load_and_prepare_data rawC4)
        ≠ all_games_list_claim (load_and_prepare_data rawC4) :=
  ⟨by decide, by decide, by decide, by decide, by decide⟩

/-- C4 amended: the candidate list offered to the multiselect holds each
distinct name of the unfiltered prepared table exactly once, ordered by
the rank of the name's FIRST record in the table's `(game_id, date)`
order — duplicates are collapsed before sorting, keeping the first
occurrence. -/
theorem c4_amended (df : List Row) :
    (all_games_list df).Nodup
    ∧ (∀ n, n ∈ all_games_list df ↔ n ∈ df.map (fun r => r.name))
    ∧ (∀ r ∈ sortByRank (dropDupsByName df),
        df.find? (fun y => decide (y.name = r.name)) = some r)
    ∧ List.Sorted rankLe (sortByRank (dropDupsByName df))
    ∧ all_games_list df = (sortByRank (dropDupsByName df)).map (fun r => r.name) := by
  have hperm : (sortByRank (dropDupsByName df)).Perm (dropDupsByName df) :=
    List.perm_insertionSort rankLe (dropDupsByName df)
  have hmapperm : ((sortByRank (dropDupsByName df)).map (fun r => r.name)).Perm
      ((dropDupsByName df).map (fun r => r.name)) :=
    hperm.map (fun r => r.name)
  refine ⟨?_, ?_, ?_, List.sorted_insertionSort rankLe _, rfl⟩
  · exact hmapperm.nodup_iff.mpr (nodup_map_key_distinctByAux (fun r => r.name) [] df)
  · intro n
    rw [all_games_list, hmapperm.mem_iff]
    have h := mem_map_key_distinctByAux (fun r => r.name) [] df n
    simpa [dropDupsByName, distinctBy] using h
  · intro r hr
    have hmem : r ∈ distinctByAux (fun x : Row => x.name) [] df := hperm.mem_iff.mp hr
    exact (find?_of_mem_distinctByAux (fun x : Row => x.name) [] df r hmem).2

theorem c4_amended_witness :
    (all_games_list (load_and_prepare_data rawC4)).Nodup
    ∧ (∀ n, n ∈ all_games_list (load_and_prepare_data rawC4)
        ↔ n ∈ (load_and_prepare_data rawC4).map (fun r => r.name)) :=
  ⟨(c4_amended (load_and_prepare_data rawC4)).1,
   (c4_amended (load_and_prepare_data rawC4)).2.1⟩

/-- Embeds lines 74–76: restrict the prepared table to
`start_date <= date <= end_date`. -/
def dateFilter (df : List Row) (sd ed : Nat) : List Row :=
  df.filter (fun r => decide (sd ≤ r.date) && decide (r.date ≤ ed))

/-- Embeds `safe_get_user_data` (lines 24–37) after the pickers returned
`(sd, ed)`: when `start_date > end_date` a non-fatal sidebar error
message is emitted (first component) and the pair is returned unchanged —
nothing is raised and nothing downstream is skipped. -/
def safe_get_user_data (sd ed : Nat) : Bool × Nat × Nat :=
  (decide (ed < sd), sd, ed)

/-- What a run of the By Rank branch (lines 162–226) renders: either the
no-ranks-selected warning, or an Altair chart whose base layer holds the
rank-filtered rows (line 198) and whose overlay layer holds the
highlighted-game rows (line 212). The `highlight` tag and the color
encodings (lines 170–195) only choose colors and are not modelled. -/
inductive RankOut where
  | warn : RankOut
  | chart : List Row → List Row → RankOut
  deriving DecidableEq

/-- Embeds lines 164–168: rows of the date-filtered table whose rank is
selected, concatenated with the rows of enabled highlighted games, with
exact-duplicate rows dropped (`pd.concat(...).drop_duplicates()`). -/
def rank_base (filt : List Row) (ranks : List Nat) (hl : List String) : List Row :=
  distinctBy (fun r => r)
    (filt.filter (fun r => decide (r.rank ∈ ranks))
      ++ filt.filter (fun r => decide (r.name ∈ hl)))

/-- Embeds the By Rank branch, lines 162–226. -/
def by_rank_section (filt : List Row) (ranks : List Nat) (hl : List String) : RankOut :=
  if ranks.isEmpty then RankOut.warn
  else
    RankOut.chart
      ((rank_base filt ranks hl).filter (fun r => decide (r.rank ∈ ranks)))
      ((rank_base filt ranks hl).filter (fun r => decide (r.name ∈ hl)))

/-- C3: with a non-empty rank selection, the By Rank branch charts (and
does not warn); its base set is exactly the union of the date-filtered
rows with selected rank and the date-filtered rows of enabled highlighted
games, duplicates removed; and the two rendered layers together cover
exactly that base set — a highlighted game's rows are rendered even when
its rank is outside the selection. -/
theorem c3_rank_union (filt : List Row) (ranks : List Nat) (hl : List String)
    (h : ranks ≠ []) :
    by_rank_section filt ranks hl
      = RankOut.chart
          ((rank_base filt ranks hl).filter (fun r => decide (r.rank ∈ ranks)))
          ((rank_base filt ranks hl).filter (fun r => decide (r.name ∈ hl)))
    ∧ (∀ r, r ∈ rank_base filt ranks hl
        ↔ r ∈ filt ∧ (r.rank ∈ ranks ∨ r.name ∈ hl))
    ∧ (∀ r, (r ∈ (rank_base filt ranks hl).filter (fun r => decide (r.rank ∈ ranks))
          ∨ r ∈ (rank_base filt ranks hl).filter (fun r => decide (r.name ∈ hl)))
        ↔ r ∈ rank_base filt ranks hl) := by
  have hbase : ∀ r, r ∈ rank_base filt ranks hl
      ↔ r ∈ filt ∧ (r.rank ∈ ranks ∨ r.name ∈ hl) := by
    intro r
    rw [rank_base, mem_distinctBy_id, List.mem_append, List.mem_filter, List.mem_filter]
    simp only [decide_eq_true_iff]
    tauto
  refine ⟨?_, hbase, ?_⟩
  · rw [by_rank_section, if_neg (by simpa using h)]
  · intro r
    rw [List.mem_filter, List.mem_filter]
    simp only [decide_eq_true_iff]
    constructor
    · rintro (⟨hm, _⟩ | ⟨hm, _⟩) <;> exact hm
    · intro hm
      rcases ((hbase r).mp hm).2 with hc | hc
      · exact Or.inl ⟨hm, hc⟩
      · exact Or.inr ⟨hm, hc⟩

/-- The date-filtered table of the C3 scenario: ranks 1 and 2 plus the
highlighted game Mindbug sitting at rank 5. -/
def rankScenario : List Row :=
  [⟨⟨11, 2, "Gamma", 2020, 1, 40⟩, 4⟩, ⟨⟨12, 2, "Delta", 2020, 2, 30⟩, 3⟩,
   ⟨⟨13, 2, "Mindbug", 2021, 5, 20⟩, 2⟩]

theorem c3_rank_union_witness :
    (([1, 2] : List Nat) ≠ [])
    ∧ (∀ r, r ∈ rank_base rankScenario [1, 2] ["Mindbug"]
        ↔ r ∈ rankScenario ∧ (r.rank ∈ [1, 2] ∨ r.name ∈ ["Mindbug"]))
    ∧ (rank_base rankScenario [1, 2] ["Mindbug"]).filter
        (fun r => decide (r.name ∈ ["Mindbug"]))
        = [⟨⟨13, 2, "Mindbug", 2021, 5, 20⟩, 2⟩] :=
  ⟨by decide, (c3_rank_union rankScenario [1, 2] ["Mindbug"] (by decide)).2.1, by decide⟩

/-- What a run of the By Game branch (lines 106–136) renders: either the
no-games-selected warning (line 136) or a line chart over the pivoted
table (lines 111–129). The per-series colors (lines 120–129) only choose
colors and are not modelled. -/
inductive GameOut where
  | warn : GameOut
  | chart : List (Nat × List (String × Int)) → GameOut
  deriving DecidableEq

/-- One cell of the pivot of lines 111–116: the sum of `views_diff` over
the rows with the given date and name; an absent combination is an empty
sum, matching `fillna(0)`. -/
def pivotCell (sel : List Row) (d : Nat) (n : String) : Int :=
  ((sel.filter (fun r => decide (r.date = d) && decide (r.name = n))).map
    (fun r => r.views_diff)).sum

/-- The pivot's columns: the distinct names of the selected rows (pandas
also sorts the labels; no verified statement depends on that order). -/
def pivotCols (sel : List Row) : List String :=
  distinctBy (fun n => n) (sel.map (fun r => r.name))

/-- The pivot's index: the distinct dates of the selected rows, ascending. -/
def pivotDates (sel : List Row) : List Nat :=
  List.insertionSort (fun a b => a ≤ b) (distinctBy (fun n => n) (sel.map (fun r => r.date)))

/-- The pivoted table of lines 111–116: one entry per distinct date, one
column per distinct name, values the per-`(date, name)` sums. -/
def pivotRows (sel : List Row) : List (Nat × List (String × Int)) :=
  (pivotDates sel).map (fun d => (d, (pivotCols sel).map (fun n => (n, pivotCell sel d n))))

/-- Embeds the By Game branch, lines 106–136: the user multiselect is
extended with the enabled highlighted games (line 106), and the branch
warns exactly when that extended list is empty. -/
def by_game_section (filt : List Row) (selectedGames hl : List String) : GameOut :=
  let effective := selectedGames ++ hl
  if effective.isEmpty then GameOut.warn
  else GameOut.chart (pivotRows (filt.filter (fun r => decide (r.name ∈ effective))))

theorem dateFilter_inverted (df : List Row) (sd ed : Nat) (h : ed < sd) :
    dateFilter df sd ed = [] := by
  rw [dateFilter, List.filter_eq_nil_iff]
  intro r _
  simp only [Bool.and_eq_true, decide_eq_true_iff]
  omega

/-- C7 counterexample: a run with an inverted date range (start 5, end 3)
and a non-empty game selection. The date filter is indeed empty and the
sidebar error message is emitted, but the run is NOT handled by the
empty-selection warning path: a line-chart call over an empty pivot is
issued, contrary to the claim's "warning, no chart". -/
theorem c7_counterexample :
    (safe_get_user_data 5 3).1 = true
    ∧ dateFilter scenarioPrepared 5 3 = []
    ∧ by_game_section (dateFilter scenarioPrepared 5 3) ["Alpha"] [] = GameOut.chart []
    ∧ by_game_section (dateFilter scenarioPrepared 5 3) ["Alpha"] [] ≠ GameOut.warn :=
  ⟨by decide, by decide, by decide, by decide⟩

/-- C7 amended: with `start_date > end_date` a non-fatal validation
message is surfaced, the dates pass through unchanged, rendering is not
blocked, and date filtering yields the empty set. That empty set is
handled by the empty-selection warning path only when the effective
selection is itself empty; with a non-empty selection, a chart call over
an empty data set is issued instead — in neither mode does an error
occur. -/
theorem c7_amended (df : List Row) (sd ed : Nat) (sel hl : List String)
    (ranks : List Nat) (h : ed < sd) :
    (safe_get_user_data sd ed).1 = true
    ∧ (safe_get_user_data sd ed).2 = (sd, ed)
    ∧ dateFilter df sd ed = []
    ∧ (sel ++ hl = [] → by_game_section (dateFilter df sd ed) sel hl = GameOut.warn)
    ∧ (sel ++ hl ≠ [] → by_game_section (dateFilter df sd ed) sel hl = GameOut.chart [])
    ∧ (ranks = [] → by_rank_section (dateFilter df sd ed) ranks hl = RankOut.warn)
    ∧ (ranks ≠ [] → by_rank_section (dateFilter df sd ed) ranks hl = RankOut.chart [] []) := by
  have hempty := dateFilter_inverted df sd ed h
  refine ⟨by simp [safe_get_user_data, h], rfl, hempty, ?_, ?_, ?_, ?_⟩
  · intro hsel
    rw [by_game_section]
    simp [hsel]
  · intro hsel
    rw [hempty, by_game_section]
    simp only [List.isEmpty_iff, hsel, if_false]
    rfl
  · intro hranks
    rw [by_rank_section]
    simp [hranks]
  · intro hranks
    rw [hempty, by_rank_section, if_neg (by simpa using hranks)]
    rfl

theorem c7_amended_witness :
    (3 < 5)
    ∧ (safe_get_user_data 5 3).1 = true
    ∧ dateFilter scenarioPrepared 5 3 = []
    ∧ by_rank_section (dateFilter scenarioPrepared 5 3) [1, 2] [] = RankOut.chart [] [] :=
  ⟨by decide,
   (c7_amended scenarioPrepared 5 3 ["Alpha"] [] [1, 2] (by decide)).1,
   (c7_amended scenarioPrepared 5 3 ["Alpha"] [] [1, 2] (by decide)).2.2.1,
   (c7_amended scenarioPrepared 5 3 ["Alpha"] [] [1, 2] (by decide)).2.2.2.2.2.2 (by decide)⟩

/-- C10: in By Game mode, an empty multiselect with at least one enabled
highlight toggle yields a non-empty effective selection, so a line-chart
call is issued and the no-games-selected warning is not shown; when the
enabled highlighted games have no rows in the date-filtered table, that
chart call is issued over the empty pivot rather than being guarded by a
warning. -/
theorem c10_highlight_only (filt : List Row) (hl : List String) (h : hl ≠ []) :
    by_game_section filt [] hl
      = GameOut.chart (pivotRows (filt.filter (fun r => decide (r.name ∈ ([] : List String) ++ hl))))
    ∧ by_game_section filt [] hl ≠ GameOut.warn
    ∧ ((∀ r ∈ filt, r.name ∉ hl) → by_game_section filt [] hl = GameOut.chart []) := by
  have hchart : by_game_section filt [] hl
      = GameOut.chart (pivotRows (filt.filter (fun r => decide (r.name ∈ ([] : List String) ++ hl)))) := by
    rw [by_game_section]
    simp only [List.nil_append, List.isEmpty_iff, h, if_false]
  refine ⟨hchart, by rw [hchart]; intro hc; exact GameOut.noConfusion hc, ?_⟩
  · intro habsent
    have hnil : filt.filter (fun r => decide (r.name ∈ ([] : List String) ++ hl)) = [] := by
      rw [List.filter_eq_nil_iff]
      intro r hr
      simpa using habsent r hr
    rw [hchart, hnil]
    rfl

theorem c10_highlight_only_witness :
    ((["Zeta"] : List String) ≠ [])
    ∧ by_game_section scenarioPrepared [] ["Zeta"] = GameOut.chart [] :=
  ⟨by decide, (c10_highlight_only scenarioPrepared ["Zeta"] (by decide)).2.2 (by decide)⟩

theorem sum_map_filter_split (p : Row → Bool) (f : Row → Int) (l : List Row) :
    ((l.filter p).map f).sum + ((l.filter (fun r => !p r)).map f).sum
      = (l.map f).sum := by
  induction l with
  | nil => simp
  | cons x xs ih =>
    by_cases hx : p x = true
    · simp [List.filter_cons, hx]
      omega
    · have hx2 : p x = false := by simpa using hx
      simp [List.filter_cons, hx2]
      omega

/-- Summing the per-key sums over a duplicate-free key list covering all
rows recovers the total sum. -/
theorem sum_over_keys (keys : List String) (rows : List Row)
    (hnd : keys.Nodup) (hcov : ∀ r ∈ rows, r.name ∈ keys) :
    (keys.map (fun n =>
      ((rows.filter (fun r => decide (r.name = n))).map (fun r => r.views_diff)).sum)).sum
      = (rows.map (fun r => r.views_diff)).sum := by
  induction keys generalizing rows with
  | nil =>
    cases rows with
    | nil => simp
    | cons r rs => exact absurd (hcov r (by simp)) (by simp)
  | cons k ks ih =>
    have hk : k ∉ ks := (List.nodup_cons.mp hnd).1
    have hnd2 : ks.Nodup := (List.nodup_cons.mp hnd).2
    have hsplit := sum_map_filter_split (fun r => decide (r.name = k))
      (fun r => r.views_diff) rows
    have hrest : ∀ n ∈ ks,
        (rows.filter (fun r => !decide (r.name = k))).filter (fun r => decide (r.name = n))
          = rows.filter (fun r => decide (r.name = n)) := by
      intro n hn
      have hnk : n ≠ k := fun he => hk (he ▸ hn)
      rw [List.filter_filter]
      apply List.filter_congr
      intro x _
      by_cases hxn : x.name = n
      · have hxk : ¬(x.name = k) := fun he => hnk (hxn ▸ he ▸ rfl)
        simp [hxn, hxk, hnk]
      · simp [hxn]
    have hcov2 : ∀ r ∈ rows.filter (fun r => !decide (r.name = k)), r.name ∈ ks := by
      intro r hr
      have hmem := List.mem_of_mem_filter hr
      have hne : ¬(r.name = k) := by
        have := (List.mem_filter.mp hr).2
        simpa using this
      rcases List.mem_cons.mp (hcov r hmem) with h | h
      · exact absurd h hne
      · exact h
    have hmap : (ks.map (fun n =>
        ((rows.filter (fun r => decide (r.name = n))).map (fun r => r.views_diff)).sum)).sum
        = (ks.map (fun n =>
          (((rows.filter (fun r => !decide (r.name = k))).filter
            (fun r => decide (r.name = n))).map (fun r => r.views_diff)).sum)).sum := by
      apply congrArg
      apply List.map_congr_left
      intro n hn
      rw [hrest n hn]
    simp only [List.map_cons, List.sum_cons]
    rw [hmap, ih (rows.filter (fun r => !decide (r.name = k))) hnd2 hcov2]
    omega

theorem pivotCols_nodup (sel : List Row) : (pivotCols sel).Nodup := by
  have h := nodup_map_key_distinctByAux (fun n : String => n) [] (sel.map (fun r => r.name))
  simpa [pivotCols, distinctBy, List.map_id'] using h

theorem mem_pivotCols (sel : List Row) (r : Row) (hr : r ∈ sel) :
    r.name ∈ pivotCols sel := by
  rw [pivotCols, mem_distinctBy_id]
  exact List.mem_map_of_mem _ hr

/-- C5: for any prepared table, date range, non-empty effective game
selection and fixed date, summing the pivoted By Game output across all
game columns at that date equals the sum of `views_diff` over the
selected, date-filtered rows carrying that date. -/
theorem c5_pivot_sum (df : List Row) (sd ed : Nat) (sel : List String) (d : Nat)
    (hsel : sel ≠ []) (hd1 : sd ≤ d) (hd2 : d ≤ ed) :
    (((pivotCols ((dateFilter df sd ed).filter (fun r => decide (r.name ∈ sel)))).map
        (fun n => pivotCell ((dateFilter df sd ed).filter
          (fun r => decide (r.name ∈ sel))) d n)).sum
      = ((((dateFilter df sd ed).filter (fun r => decide (r.name ∈ sel))).filter
          (fun r => decide (r.date = d))).map (fun r => r.views_diff)).sum) := by
  generalize (dateFilter df sd ed).filter (fun r => decide (r.name ∈ sel)) = dfSel
  have hcell : ∀ n, pivotCell dfSel d n
      = (((dfSel.filter (fun r => decide (r.date = d))).filter
          (fun r => decide (r.name = n))).map (fun r => r.views_diff)).sum := by
    intro n
    have hsw : dfSel.filter (fun r => decide (r.date = d) && decide (r.name = n))
        = (dfSel.filter (fun r => decide (r.date = d))).filter
            (fun r => decide (r.name = n)) := by
      rw [List.filter_filter]
      apply List.filter_congr
      intro x _
      exact Bool.and_comm _ _
    rw [pivotCell, hsw]
  have hmap : (pivotCols dfSel).map (fun n => pivotCell dfSel d n)
      = (pivotCols dfSel).map (fun n =>
          (((dfSel.filter (fun r => decide (r.date = d))).filter
            (fun r => decide (r.name = n))).map (fun r => r.views_diff)).sum) := by
    apply List.map_congr_left
    intro n _
    exact hcell n
  rw [hmap]
  apply sum_over_keys
  · exact pivotCols_nodup dfSel
  · intro r hr
    exact mem_pivotCols dfSel r (List.mem_of_mem_filter hr)

theorem c5_pivot_sum_witness :
    ((["Alpha", "Beta"] : List String) ≠ [] ∧ 2 ≤ 3 ∧ 3 ≤ 3)
    ∧ ((pivotCols ((dateFilter scenarioPrepared 2 3).filter
          (fun r => decide (r.name ∈ (["Alpha", "Beta"] : List String))))).map
        (fun n => pivotCell ((dateFilter scenarioPrepared 2 3).filter
          (fun r => decide (r.name ∈ (["Alpha", "Beta"] : List String)))) 3 n)).sum
      = ((((dateFilter scenarioPrepared 2 3).filter
            (fun r => decide (r.name ∈ (["Alpha", "Beta"] : List String)))).filter
          (fun r => decide (r.date = 3))).map (fun r => r.views_diff)).sum :=
  ⟨⟨by decide, by decide, by decide⟩,
   c5_pivot_sum scenarioPrepared 2 3 ["Alpha", "Beta"] 3 (by decide) (by decide)
     (by decide)⟩

/-- One displayed row of the single-day table, fields in the column order
of line 263: `rank, game_id, name, year, views, views_diff`. -/
structure DisplayRow where
  rank : Nat
  game_id : Nat
  name : String
  year : Int
  views : Int
  views_diff : Int
  deriving DecidableEq

/-- The column projection of line 263 applied to one prepared row. -/
def displayRow (r : Row) : DisplayRow :=
  ⟨r.rank, r.game_id, r.name, r.year, r.views, r.views_diff⟩

/-- What a run of `hotness_table_section` renders after the date was
picked: either the no-data warning (line 257) or the read-only table
(lines 261–265). -/
inductive TableOut where
  | warn : TableOut
  | table : List DisplayRow → TableOut
  deriving DecidableEq

/-- The default of the single-day picker (line 243): `df["date"].max()`. -/
def single_day_default (df : List Row) : Option Nat :=
  (df.map (fun r => r.date)).max?

/-- Embeds `hotness_table_section` (lines 231–265) for a picked day:
filter to that exact date (line 250), sort by rank (line 254), then warn
when empty, else render the projected columns. -/
def hotness_table_section (df : List Row) (day : Nat) : TableOut :=
  let rows := sortByRank (df.filter (fun r => decide (r.date = day)))
  if rows.isEmpty then TableOut.warn
  else TableOut.table (rows.map displayRow)

/-- C9: the single-day picker defaults to the maximum date present in the
prepared table; the section warns exactly when no row matches the picked
date, and otherwise renders precisely those rows, as a permutation sorted
ascending by rank, projected to the columns
`rank, game_id, name, year, views, views_diff` in that order. -/
theorem c9_single_day (df : List Row) (day m : Nat)
    (hm : single_day_default df = some m) :
    (m ∈ df.map (fun r => r.date) ∧ ∀ x ∈ df.map (fun r => r.date), x ≤ m)
    ∧ (df.filter (fun r => decide (r.date = day)) = []
        → hotness_table_section df day = TableOut.warn)
    ∧ (df.filter (fun r => decide (r.date = day)) ≠ []
        → hotness_table_section df day
            = TableOut.table ((sortByRank (df.filter (fun r => decide (r.date = day)))).map displayRow)
          ∧ List.Sorted rankLe (sortByRank (df.filter (fun r => decide (r.date = day))))
          ∧ (sortByRank (df.filter (fun r => decide (r.date = day)))).Perm
              (df.filter (fun r => decide (r.date = day)))) := by
  refine ⟨List.max?_eq_some_iff'.mp hm, ?_, ?_⟩
  · intro hempty
    rw [hotness_table_section]
    simp [hempty, sortByRank]
  · intro hne
    have hperm : (sortByRank (df.filter (fun r => decide (r.date = day)))).Perm
        (df.filter (fun r => decide (r.date = day))) :=
      List.perm_insertionSort rankLe _
    have hlen : (sortByRank (df.filter (fun r => decide (r.date = day)))).length ≠ 0 := by
      rw [hperm.length_eq]
      simpa using fun hc => hne (List.eq_nil_of_length_eq_zero hc)
    have hsorted_ne : ¬(sortByRank (df.filter (fun r => decide (r.date = day)))).isEmpty = true := by
      rw [List.isEmpty_iff]
      intro hc
      exact hlen (by rw [hc]; rfl)
    refine ⟨?_, List.sorted_insertionSort rankLe _, hperm⟩
    rw [hotness_table_section]
    simp [hsorted_ne]

theorem c9_single_day_witness :
    (single_day_default scenarioPrepared = some 3)
    ∧ hotness_table_section scenarioPrepared 2
        = TableOut.table [⟨1, 101, "Alpha", 2020, 120, 20⟩, ⟨2, 102, "Beta", 2021, 80, 30⟩]
    ∧ hotness_table_section scenarioPrepared 5 = TableOut.warn :=
  ⟨by decide,
   by
    have h := ((c9_single_day scenarioPrepared 2 3 (by decide)).2.2 (by decide)).1
    rw [h]
    decide,
   (c9_single_day scenarioPrepared 5 3 (by decide)).2.1 (by decide)⟩
